import Mathlib

/-
  Verification of the Lockr credential vault and host prober against the
  repository specification.  The Python sources
  (src/unified_password_manager.py, src/enhanced_unified_manager.py) are
  shallowly embedded: Python strings become explicit character lists,
  the vault directory becomes an association list from paths to file
  contents, the ansible-vault subprocess becomes an abstract cipher pair
  together with a success flag, and the random source feeding password
  generation becomes an explicit structure of draws.
-/

namespace Lockr


/-- Python strings are modelled as explicit character lists. -/
abbrev Str := List Char

/-- The whitespace characters removed by Python str.strip(). -/
def isPySpace (c : Char) : Bool :=
  c == ' ' || c == '\t' || c == '\n' || c == '\r' || c == '\x0b' || c == '\x0c'

/-- Python s.strip(): remove leading and trailing whitespace. -/
def pyStrip (s : Str) : Str :=
  ((s.dropWhile isPySpace).reverse.dropWhile isPySpace).reverse

/-! ### Password generation

`generate_secure_password` (src/enhanced_unified_manager.py lines 929-952,
byte-identical to src/unified_password_manager.py lines 34-57).  The calls to
`secrets.choice` and `secrets.SystemRandom().shuffle` are modelled by an
explicit random source: one natural-number draw per choice (reduced modulo
the character-set size) and an arbitrary shuffle function that is assumed to
permute its input. -/

def lowercaseChars : Str := "abcdefghijklmnopqrstuvwxyz".data

def uppercaseChars : Str := "ABCDEFGHIJKLMNOPQRSTUVWXYZ".data

def digitChars : Str := "0123456789".data

def symbolChars : Str := "!@#$%^&*()_+-=[]\x7b\x7d|;:,.<>?".data

def allChars : Str := lowercaseChars ++ uppercaseChars ++ digitChars ++ symbolChars

/-- secrets.choice: pick one element of a nonempty sequence; the random draw
is an arbitrary natural number index, reduced modulo the length. -/
def secretsChoice (s : Str) (i : Nat) : Char := s.getD (i % s.length) 'a'

/-- The random source consumed by one call to generate_secure_password. -/
structure Rand where
  iLower : Nat
  iUpper : Nat
  iDigit : Nat
  iSym : Nat
  iFill : Nat → Nat
  shuffle : Str → Str

/-- The shuffle step permutes its input (behaviour of random shuffle). -/
def GoodShuffle (r : Rand) : Prop := ∀ l : Str, List.Perm (r.shuffle l) l

/-- generate_secure_password: one char from each class, `length - 4` filler
chars from the union, then shuffle.  Python's `range(length - 4)` is empty
for `length < 4` exactly as Nat subtraction truncates to 0. -/
def generate_secure_password (length : Nat) (r : Rand) : Str :=
  let password : Str :=
    [secretsChoice lowercaseChars r.iLower,
     secretsChoice uppercaseChars r.iUpper,
     secretsChoice digitChars r.iDigit,
     secretsChoice symbolChars r.iSym]
  let fill : Str := (List.range (length - 4)).map (fun k => secretsChoice allChars (r.iFill k))
  r.shuffle (password ++ fill)

/-- A concrete random source: always draw index 0, shuffle by the identity. -/
def idRand : Rand := ⟨0, 0, 0, 0, fun _ => 0, id⟩

/-! ### Host prober

`perform_health_check` and its four stages
(src/enhanced_unified_manager.py lines 79-148, 277-299, 301-391, 393-429,
431-501, 503-584, 586-610).  Network behaviour of the probed host is an
abstract `World`: whether the ping subprocess is available and how it exits,
which TCP ports accept a connection, whether the local SSH key file exists,
and how the paramiko connect / resource commands turn out.  Each stage also
emits the probe events it performs, so that "no attempt was made" is a
statement about the event trace. -/

inductive ConnStatus
  | online
  | offline
  | errorC
deriving DecidableEq, Fintype

inductive PortStatus
  | openP
  | closed
  | errorP
deriving DecidableEq, Fintype

inductive AuthStatus
  | authenticated
  | auth_failed
  | no_key
  | ssh_error
  | errorA
deriving DecidableEq, Fintype

inductive ResStatus
  | healthy
  | issues
  | unknown
  | errorR
deriving DecidableEq, Fintype

inductive Overall
  | healthy
  | degraded
  | unhealthy
deriving DecidableEq, Fintype

/-- The overall-status decision of perform_health_check
(src/enhanced_unified_manager.py lines 117-137), as a pure function of the
four stage statuses.  The inner `if` mirrors the redundant source branch at
lines 130-135 (both arms yield degraded). -/
def overallStatus (c : ConnStatus) (p : PortStatus) (a : AuthStatus) (r : ResStatus) : Overall :=
  if c = ConnStatus.offline then Overall.unhealthy
  else if p = PortStatus.closed then Overall.unhealthy
  else if a = AuthStatus.auth_failed ∨ a = AuthStatus.no_key then Overall.degraded
  else if r = ResStatus.issues then
    (if c = ConnStatus.online ∧ p = PortStatus.openP ∧ a = AuthStatus.authenticated
     then Overall.degraded else Overall.degraded)
  else Overall.healthy

/-- How the ping subprocess exits in test_connectivity_detailed. -/
inductive PingOut
  | rcZero
  | rcNonZero
  | timedOut
deriving DecidableEq, Fintype

/-- How the paramiko connect attempt in test_ssh_authentication_detailed
ends: success, AuthenticationException, SSHException, or any other error. -/
inductive SshOutcome
  | ok
  | authExc
  | sshExc
  | otherExc
deriving DecidableEq, Fintype

/-- The environment a probe runs against. -/
structure World where
  pingAvail : Bool
  ping : PingOut
  portOpen : Nat → Bool
  keyExists : Bool
  sshAuth : SshOutcome
  res : ResStatus

/-- Network actions performed during a probe. -/
inductive Event
  | pingProbe
  | portProbe (p : Nat)
  | sshConnect
  | resQuery
deriving DecidableEq

/-- test_connectivity_socket (lines 277-299): TCP connect to ports 22, 80,
443 in order, stopping at the first success. -/
def socketProbe (w : World) : List Nat → (Bool × List Event)
  | [] => (false, [])
  | p :: ps =>
    if w.portOpen p then (true, [Event.portProbe p])
    else
      let rest := socketProbe w ps
      (rest.1, Event.portProbe p :: rest.2)

/-- test_connectivity_detailed (lines 301-391): ping if available, fall back
to the socket probe on a nonzero exit; a ping timeout is offline outright. -/
def test_connectivity_detailed (w : World) : ConnStatus × List Event :=
  if w.pingAvail then
    match w.ping with
    | PingOut.rcZero => (ConnStatus.online, [Event.pingProbe])
    | PingOut.rcNonZero =>
      let s := socketProbe w [22, 80, 443]
      ((if s.1 then ConnStatus.online else ConnStatus.offline), Event.pingProbe :: s.2)
    | PingOut.timedOut => (ConnStatus.offline, [Event.pingProbe])
  else
    let s := socketProbe w [22, 80, 443]
    ((if s.1 then ConnStatus.online else ConnStatus.offline), s.2)

/-- test_ssh_port_detailed (lines 393-429) on port 22. -/
def test_ssh_port_detailed (w : World) : PortStatus × List Event :=
  if w.portOpen 22 then (PortStatus.openP, [Event.portProbe 22])
  else (PortStatus.closed, [Event.portProbe 22])

/-- test_ssh_authentication_detailed (lines 431-501): without a key file no
connection is attempted; with one, paramiko connect is attempted and its
exception class decides the status. -/
def test_ssh_authentication_detailed (w : World) : AuthStatus × List Event :=
  if w.keyExists then
    match w.sshAuth with
    | SshOutcome.ok => (AuthStatus.authenticated, [Event.sshConnect])
    | SshOutcome.authExc => (AuthStatus.auth_failed, [Event.sshConnect])
    | SshOutcome.sshExc => (AuthStatus.ssh_error, [Event.sshConnect])
    | SshOutcome.otherExc => (AuthStatus.errorA, [Event.sshConnect])
  else (AuthStatus.no_key, [])

/-- check_system_resources_detailed (lines 503-584): performs the remote
resource queries; the outcome is supplied by the world. -/
def check_system_resources_detailed (w : World) : ResStatus × List Event :=
  (w.res, [Event.resQuery])

/-- generate_troubleshooting_recommendations (lines 586-610). -/
def generate_troubleshooting_recommendations
    (c : ConnStatus) (p : PortStatus) (a : AuthStatus) (r : ResStatus) : List Str :=
  let l1 := if c = ConnStatus.offline then
      ["CRITICAL: Server is not reachable - check network connectivity and server power".data]
    else []
  let l2 := if p = PortStatus.closed then
      ["SSH service not accessible - check if SSH is running and firewall settings".data]
    else []
  let l3 := if a = AuthStatus.auth_failed ∨ a = AuthStatus.no_key then
      ["SSH authentication failed - verify SSH keys and user configuration".data]
    else []
  let l4 := if r = ResStatus.issues then
      ["System resource issues detected - monitor but not critical for basic functionality".data]
    else []
  let recs := l1 ++ l2 ++ l3 ++ l4
  if recs = [] then ["All systems appear to be functioning normally".data] else recs

structure HealthResult where
  conn : ConnStatus
  port : PortStatus
  auth : AuthStatus
  res : ResStatus
  overall : Overall
  troubleshooting : List Str
deriving DecidableEq

/-- perform_health_check (lines 79-148): runs stage 1, stage 2 and stage 3
unconditionally, runs stage 4 only when stage 3 authenticated (otherwise the
resource check is recorded as unknown without any remote query), then derives
recommendations and the overall status. -/
def perform_health_check (w : World) : HealthResult × List Event :=
  let s1 := test_connectivity_detailed w
  let s2 := test_ssh_port_detailed w
  let s3 := test_ssh_authentication_detailed w
  let s4 := if s3.1 = AuthStatus.authenticated then check_system_resources_detailed w
            else (ResStatus.unknown, [])
  ({ conn := s1.1, port := s2.1, auth := s3.1, res := s4.1,
     overall := overallStatus s1.1 s2.1 s3.1 s4.1,
     troubleshooting := generate_troubleshooting_recommendations s1.1 s2.1 s3.1 s4.1 },
   s1.2 ++ s2.2 ++ s3.2 ++ s4.2)

/-- A host that refuses TCP connections on every port, with ping failing and
an SSH key configured locally. -/
def refusingWorld : World :=
  { pingAvail := true
    ping := PingOut.rcNonZero
    portOpen := fun _ => false
    keyExists := true
    sshAuth := SshOutcome.otherExc
    res := ResStatus.healthy }

/-! ### The vault directory as an association list

The vault directory is a flat store from full file paths to file contents.
`fsWrite` overwrites in place or appends a new entry (keeping one entry per
path), `fsRemove` models os.remove, `fsRead` models open/read (`none` plays
the role of a failed os.path.exists check). -/

abbrev FS := List (Str × Str)

def fsRead : FS → Str → Option Str
  | [], _ => none
  | e :: rest, k => if e.1 = k then some e.2 else fsRead rest k

def fsWrite : FS → Str → Str → FS
  | [], k, v => [(k, v)]
  | e :: rest, k, v => if e.1 = k then (k, v) :: rest else e :: fsWrite rest k v

def fsRemove : FS → Str → FS
  | [], _ => []
  | e :: rest, k => if e.1 = k then fsRemove rest k else e :: fsRemove rest k

def fsKeys (fs : FS) : List Str := fs.map (fun e => e.1)

/-- Count of keys satisfying a predicate; used to count stored versions. -/
def countKeys (p : Str → Bool) (fs : FS) : Nat := (fsKeys fs).countP p

/-! ### Vault paths

File paths used by create_vault_structure, retrieve_password_from_vault and
list_all_passwords (src/enhanced_unified_manager.py lines 954-1150;
src/unified_password_manager.py lines 59-197 is the same layout without the
timestamp file). -/

def VAULT_DIR : Str := "/home/brian/playbooks/vault".data

/-- The shared path stem VAULT_DIR/{server}_{username}. -/
def keyBase (server username : Str) : Str :=
  VAULT_DIR ++ "/".data ++ server ++ "_".data ++ username

/-- f-string VAULT_DIR/{server}_{username}_{timestamp}. -/
def vaultDirFor (server username ts : Str) : Str :=
  keyBase server username ++ "_".data ++ ts

/-- f-string {vault_dir}/password.txt. -/
def passwordFileOf (server username ts : Str) : Str :=
  vaultDirFor server username ts ++ "/password.txt".data

/-- f-string {vault_dir}/password.txt.vault. -/
def encryptedFileOf (server username ts : Str) : Str :=
  vaultDirFor server username ts ++ "/password.txt.vault".data

/-- f-string VAULT_DIR/{server}_{username}_current. -/
def currentFileOf (server username : Str) : Str :=
  keyBase server username ++ "_current".data

/-- f-string VAULT_DIR/{server}_{username}_timestamp. -/
def timestampFileOf (server username : Str) : Str :=
  keyBase server username ++ "_timestamp".data

/-! ### Vault operations

create_vault_structure (src/enhanced_unified_manager.py lines 954-1024; the
version in src/unified_password_manager.py lines 59-111 is identical except
that it does not write the timestamp file).  The ansible-vault encrypt
subprocess is modelled by the cipher function `encFn` (what it writes to the
output file) and the flag `encOk` (whether its return code is zero).  The
decrypt subprocess is the partial inverse `decFn` (its stdout, `none` for a
nonzero return code). -/

structure CreateResult where
  success : Bool
  encrypted_file : Option Str
  timestamp : Option Str
deriving DecidableEq

def create_vault_structure (server username password ts ctime : Str)
    (encFn : Str → Str) (encOk : Bool) (fs : FS) : CreateResult × FS :=
  let password_file := passwordFileOf server username ts
  let fs1 := fsWrite fs password_file password
  let current_file := currentFileOf server username
  let fs2 := fsWrite fs1 current_file password_file
  let timestamp_file := timestampFileOf server username
  let fs3 := fsWrite fs2 timestamp_file ctime
  let encrypted_file := encryptedFileOf server username ts
  if encOk then
    let fs4 := fsWrite fs3 encrypted_file (encFn password)
    let fs5 := fsRemove fs4 password_file
    let fs6 := fsWrite fs5 current_file encrypted_file
    ({ success := true, encrypted_file := some encrypted_file, timestamp := some ts }, fs6)
  else
    ({ success := false, encrypted_file := none, timestamp := none }, fs3)

structure RetrieveResult where
  success : Bool
  password : Option Str
deriving DecidableEq

/-- update_password_timestamp (src/enhanced_unified_manager.py lines
1086-1096): overwrite the timestamp file with the current time. -/
def update_password_timestamp (server username now : Str) (fs : FS) : FS :=
  fsWrite fs (timestampFileOf server username) now

/-- retrieve_password_from_vault (src/enhanced_unified_manager.py lines
1026-1084): resolve the pointer, check both files exist, decrypt, update the
timestamp file on success and return the stripped stdout. -/
def retrieve_password_from_vault (server username : Str) (decFn : Str → Option Str)
    (now : Str) (fs : FS) : RetrieveResult × FS :=
  let current_file := currentFileOf server username
  match fsRead fs current_file with
  | none => ({ success := false, password := none }, fs)
  | some content =>
    let encrypted_file := pyStrip content
    match fsRead fs encrypted_file with
    | none => ({ success := false, password := none }, fs)
    | some ciphertext =>
      match decFn ciphertext with
      | none => ({ success := false, password := none }, fs)
      | some plaintext =>
        ({ success := true, password := some (pyStrip plaintext) },
         update_password_timestamp server username now fs)

/-- mint_and_store: the /api/create_password path of generating a password
and storing it with create_vault_structure
(src/enhanced_unified_manager.py lines 1608-1612). -/
def mint_and_store (server username : Str) (length : Nat) (r : Rand) (ts ctime : Str)
    (encFn : Str → Str) (encOk : Bool) (fs : FS) : Str × CreateResult × FS :=
  let pw := generate_secure_password length r
  let res := create_vault_structure server username pw ts ctime encFn encOk fs
  (pw, res.1, res.2)

def tagEnc : Str → Str := fun p => 'E' :: p

def tagDec : Str → Option Str := fun cph =>
  match cph with
  | 'E' :: t => some t
  | _ => none

/-! ### Audit logging

log_action (src/enhanced_unified_manager.py; same shape in
src/unified_password_manager.py lines 322-335) appends one structured entry
to the audit sink.  The /api/retrieve_password endpoint
(src/enhanced_unified_manager.py lines 1640-1670) is modelled after its
input validation: a retrieval request with both names present. -/

structure AuditEntry where
  timestamp : Str
  user : Str
  action : Str
  server : Str
  target_user : Str
  status : Str
deriving DecidableEq

def log_action (log : List AuditEntry) (now user action server target status : Str) :
    List AuditEntry :=
  log ++ [{ timestamp := now, user := user, action := action, server := server,
            target_user := target, status := status }]

def retrieve_password_endpoint (actor server username : Str) (decFn : Str → Option Str)
    (now : Str) (fs : FS) (log : List AuditEntry) :
    RetrieveResult × FS × List AuditEntry :=
  let res := retrieve_password_from_vault server username decFn now fs
  if res.1.success then
    (res.1, res.2, log_action log now actor "retrieve".data server username "success".data)
  else
    (res.1, res.2, log_action log now actor "retrieve".data server username "failed".data)

/-! ### Listing the vault

list_all_passwords (src/enhanced_unified_manager.py lines 1098-1150).  The
unified_password_manager variant (lines 162-197) has no timestamp files and
always uses file modification time. -/

def pyReplaceAux : Nat → Str → Str → Str → Str
  | 0, _, _, _ => []
  | _ + 1, _, _, [] => []
  | fuel + 1, pat, repl, c :: rest =>
    if pat.isPrefixOf (c :: rest) then
      repl ++ pyReplaceAux fuel pat repl ((c :: rest).drop pat.length)
    else
      c :: pyReplaceAux fuel pat repl rest

/-- Python s.replace(pat, repl) for a nonempty pattern: replace every
non-overlapping leftmost occurrence.  The fuel argument only bounds the
recursion; one unit is spent per consumed character, so s.length + 1 units
always suffice. -/
def pyReplace (s pat repl : Str) : Str := pyReplaceAux (s.length + 1) pat repl s

/-- Python s.split(sep, 1): split at the first separator only; a list of one
element when the separator is absent. -/
def pySplitOnce (sep : Char) : Str → List Str
  | [] => [[]]
  | c :: rest =>
    if c = sep then [[], rest]
    else
      match pySplitOnce sep rest with
      | [one] => [c :: one]
      | [a, b] => [c :: a, b]
      | other => other

/-- os.listdir(VAULT_DIR) over the modelled store: the names of entries
directly inside the vault directory (no further path separator).  Version
subdirectories are not stored as entries here; their names end in the mint
timestamp, never in _current, so list_all_passwords skips them exactly as it
skips the non-pointer files below. -/
def dirEntry (k : Str) : Option Str :=
  if (VAULT_DIR ++ "/".data).isPrefixOf k then
    let name := k.drop (VAULT_DIR ++ "/".data).length
    if '/' ∈ name then none else some name
  else none

def listdirVault (fs : FS) : List Str := fs.filterMap (fun e => dirEntry e.1)

structure PwEntry where
  server : Str
  username : Str
  last_updated : Option Str
deriving DecidableEq

/-- list_all_passwords: for each directory entry ending in _current, delete
the substring _current (Python replace removes every occurrence), split at
the first underscore into server and username, and report the stripped
timestamp-file content as last_updated.  `none` stands for the fallback
branch taken when the timestamp file is absent, which reads the password
file's modification time — filesystem metadata outside this model — and
backfills the timestamp file. -/
def list_all_passwords (fs : FS) : List PwEntry :=
  (listdirVault fs).filterMap (fun file =>
    if "_current".data.isSuffixOf file then
      match pySplitOnce '_' (pyReplace file "_current".data []) with
      | [server, username] =>
        match fsRead fs (timestampFileOf server username) with
        | some t => some { server := server, username := username,
                           last_updated := some (pyStrip t) }
        | none => some { server := server, username := username, last_updated := none }
      | _ => none
    else none)

/-! ### Version history

A stored version blob for (server, username) is a key of the form
VAULT_DIR/{server}_{username}_{ts}/password.txt.vault.  isVersionKey
recognises exactly these keys. -/

def versionKeyStem (server username : Str) : Str := keyBase server username ++ "_".data

def versionKeySuffix : Str := "/password.txt.vault".data

def isVersionKey (server username : Str) (k : Str) : Bool :=
  (versionKeyStem server username).isPrefixOf k && versionKeySuffix.isSuffixOf k &&
    decide ((versionKeyStem server username).length + versionKeySuffix.length ≤ k.length)

/-- The number of stored version blobs for one (server, username). -/
def version_count (server username : Str) (fs : FS) : Nat :=
  countKeys (isVersionKey server username) fs

/-- One rotation input: the generated password, the mint timestamp used in
the version directory name, and the creation-time string. -/
structure MintInput where
  pw : Str
  ts : Str
  ctime : Str
deriving DecidableEq

/-- A sequence of successful mints/rotations for one (server, username). -/
def runMints (server username : Str) (encFn : Str → Str) : List MintInput → FS → FS
  | [], fs => fs
  | m :: ms, fs =>
    runMints server username encFn ms
      (create_vault_structure server username m.pw m.ts m.ctime encFn true fs).2

/-! ### Theorems -/

lemma dropWhile_cons_of_false {p : Char → Bool} {c : Char} {l : Str} (h : p c = false) :
    List.dropWhile p (c :: l) = c :: l := by
  simp [List.dropWhile, h]

lemma dropWhile_eq_self_of_all_false {p : Char → Bool} {l : Str}
    (h : ∀ c ∈ l, p c = false) : l.dropWhile p = l := by
  cases l with
  | nil => rfl
  | cons c t => exact dropWhile_cons_of_false (h c (List.mem_cons_self c t))

lemma pyStrip_eq_self {s : Str} (h1 : s.dropWhile isPySpace = s)
    (h2 : s.reverse.dropWhile isPySpace = s.reverse) : pyStrip s = s := by
  unfold pyStrip
  rw [h1, h2, List.reverse_reverse]

lemma pyStrip_eq_self_of_clean {s : Str} (h : ∀ c ∈ s, isPySpace c = false) :
    pyStrip s = s := by
  refine pyStrip_eq_self (dropWhile_eq_self_of_all_false h)
    (dropWhile_eq_self_of_all_false ?_)
  intro c hc
  exact h c (List.mem_reverse.mp hc)

lemma getD_mem_of_lt : ∀ (s : Str) (n : Nat), n < s.length → s.getD n 'a' ∈ s := by
  intro s
  induction s with
  | nil => intro n h; simp at h
  | cons c t ih =>
    intro n h
    cases n with
    | zero => simp
    | succ m =>
      have hm : m < t.length := by simpa using h
      simpa using Or.inr (ih m hm)

lemma secretsChoice_mem {s : Str} (hs : s ≠ []) (i : Nat) : secretsChoice s i ∈ s := by
  have hlen : 0 < s.length := List.length_pos.mpr hs
  exact getD_mem_of_lt s (i % s.length) (Nat.mod_lt _ hlen)

lemma generate_length (L : Nat) (r : Rand) (hr : GoodShuffle r) :
    (generate_secure_password L r).length = 4 + (L - 4) := by
  unfold generate_secure_password
  rw [(hr _).length_eq]
  simp
  omega

lemma mem_generate_of_base {L : Nat} {r : Rand} (hr : GoodShuffle r) {c : Char}
    (h : c ∈ ([secretsChoice lowercaseChars r.iLower,
                secretsChoice uppercaseChars r.iUpper,
                secretsChoice digitChars r.iDigit,
                secretsChoice symbolChars r.iSym] : Str)) :
    c ∈ generate_secure_password L r := by
  unfold generate_secure_password
  exact (hr _).mem_iff.mpr (List.mem_append_left _ h)

lemma mem_generate_all {L : Nat} {r : Rand} (hr : GoodShuffle r) {c : Char}
    (h : c ∈ generate_secure_password L r) : c ∈ allChars := by
  unfold generate_secure_password at h
  rcases List.mem_append.mp ((hr _).mem_iff.mp h) with hb | hf
  · simp only [List.mem_cons, List.not_mem_nil, or_false] at hb
    rcases hb with h1 | h1 | h1 | h1
    · exact h1 ▸ List.mem_append_left _
        (List.mem_append_left _ (List.mem_append_left _
          (secretsChoice_mem (by decide) r.iLower)))
    · exact h1 ▸ List.mem_append_left _
        (List.mem_append_left _ (List.mem_append_right _
          (secretsChoice_mem (by decide) r.iUpper)))
    · exact h1 ▸ List.mem_append_left _
        (List.mem_append_right _ (secretsChoice_mem (by decide) r.iDigit))
    · exact h1 ▸ List.mem_append_right _ (secretsChoice_mem (by decide) r.iSym)
  · rcases List.mem_map.mp hf with ⟨k, _, hk⟩
    exact hk ▸ secretsChoice_mem (by decide) (r.iFill k)

/-- C4: for every requested length L ≥ 4, the generated password under the
default four-class policy has length exactly L and contains at least one
character from each of the four classes. -/
theorem generated_password_meets_policy (L : Nat) (hL : 4 ≤ L) (r : Rand) (hr : GoodShuffle r) :
    (generate_secure_password L r).length = L ∧
    (∃ c ∈ generate_secure_password L r, c ∈ lowercaseChars) ∧
    (∃ c ∈ generate_secure_password L r, c ∈ uppercaseChars) ∧
    (∃ c ∈ generate_secure_password L r, c ∈ digitChars) ∧
    (∃ c ∈ generate_secure_password L r, c ∈ symbolChars) := by
  refine ⟨?_, ?_, ?_, ?_, ?_⟩
  · rw [generate_length L r hr]; omega
  · exact ⟨secretsChoice lowercaseChars r.iLower,
      mem_generate_of_base hr (by simp), secretsChoice_mem (by decide) r.iLower⟩
  · exact ⟨secretsChoice uppercaseChars r.iUpper,
      mem_generate_of_base hr (by simp), secretsChoice_mem (by decide) r.iUpper⟩
  · exact ⟨secretsChoice digitChars r.iDigit,
      mem_generate_of_base hr (by simp), secretsChoice_mem (by decide) r.iDigit⟩
  · exact ⟨secretsChoice symbolChars r.iSym,
      mem_generate_of_base hr (by simp), secretsChoice_mem (by decide) r.iSym⟩

lemma idRand_good : GoodShuffle idRand := fun l => List.Perm.refl l

theorem generated_password_meets_policy_witness :
    4 ≤ 4 ∧
    ((generate_secure_password 4 idRand).length = 4 ∧
     (∃ c ∈ generate_secure_password 4 idRand, c ∈ lowercaseChars) ∧
     (∃ c ∈ generate_secure_password 4 idRand, c ∈ uppercaseChars) ∧
     (∃ c ∈ generate_secure_password 4 idRand, c ∈ digitChars) ∧
     (∃ c ∈ generate_secure_password 4 idRand, c ∈ symbolChars)) :=
  ⟨by decide, generated_password_meets_policy 4 (by decide) idRand idRand_good⟩

/-- C10: for every requested length L < 4, password generation does not fail
and does not return a string of length L; it returns a password of length
exactly 4 with one character from each class (the fill step is empty). -/
theorem short_request_gives_length_four (L : Nat) (hL : L < 4) (r : Rand) (hr : GoodShuffle r) :
    (generate_secure_password L r).length = 4 ∧
    (generate_secure_password L r).length ≠ L ∧
    (∃ c ∈ generate_secure_password L r, c ∈ lowercaseChars) ∧
    (∃ c ∈ generate_secure_password L r, c ∈ uppercaseChars) ∧
    (∃ c ∈ generate_secure_password L r, c ∈ digitChars) ∧
    (∃ c ∈ generate_secure_password L r, c ∈ symbolChars) := by
  have hlen : (generate_secure_password L r).length = 4 := by
    rw [generate_length L r hr]; omega
  refine ⟨hlen, by omega, ?_, ?_, ?_, ?_⟩
  · exact ⟨secretsChoice lowercaseChars r.iLower,
      mem_generate_of_base hr (by simp), secretsChoice_mem (by decide) r.iLower⟩
  · exact ⟨secretsChoice uppercaseChars r.iUpper,
      mem_generate_of_base hr (by simp), secretsChoice_mem (by decide) r.iUpper⟩
  · exact ⟨secretsChoice digitChars r.iDigit,
      mem_generate_of_base hr (by simp), secretsChoice_mem (by decide) r.iDigit⟩
  · exact ⟨secretsChoice symbolChars r.iSym,
      mem_generate_of_base hr (by simp), secretsChoice_mem (by decide) r.iSym⟩

theorem short_request_gives_length_four_witness :
    2 < 4 ∧
    ((generate_secure_password 2 idRand).length = 4 ∧
     (generate_secure_password 2 idRand).length ≠ 2 ∧
     (∃ c ∈ generate_secure_password 2 idRand, c ∈ lowercaseChars) ∧
     (∃ c ∈ generate_secure_password 2 idRand, c ∈ uppercaseChars) ∧
     (∃ c ∈ generate_secure_password 2 idRand, c ∈ digitChars) ∧
     (∃ c ∈ generate_secure_password 2 idRand, c ∈ symbolChars)) :=
  ⟨by decide, short_request_gives_length_four 2 (by decide) idRand idRand_good⟩

/-- C2: the overall classification is a pure function of the four stage
outcomes and reproduces the severity precedence offline > port closed >
auth failed / no credential > issues > healthy, with the two spot checks
(online, open, authenticated, healthy) = healthy and
(online, open, auth_failed, r) = degraded. -/
theorem overall_status_precedence :
    ∀ (c : ConnStatus) (p : PortStatus) (a : AuthStatus) (r : ResStatus),
    (c = ConnStatus.offline → overallStatus c p a r = Overall.unhealthy) ∧
    (c ≠ ConnStatus.offline ∧ p = PortStatus.closed →
      overallStatus c p a r = Overall.unhealthy) ∧
    (c ≠ ConnStatus.offline ∧ p ≠ PortStatus.closed ∧
      (a = AuthStatus.auth_failed ∨ a = AuthStatus.no_key) →
      overallStatus c p a r = Overall.degraded) ∧
    (c ≠ ConnStatus.offline ∧ p ≠ PortStatus.closed ∧ a ≠ AuthStatus.auth_failed ∧
      a ≠ AuthStatus.no_key ∧ r = ResStatus.issues →
      overallStatus c p a r = Overall.degraded) ∧
    (c ≠ ConnStatus.offline ∧ p ≠ PortStatus.closed ∧ a ≠ AuthStatus.auth_failed ∧
      a ≠ AuthStatus.no_key ∧ r ≠ ResStatus.issues →
      overallStatus c p a r = Overall.healthy) ∧
    overallStatus ConnStatus.online PortStatus.openP AuthStatus.authenticated ResStatus.healthy
      = Overall.healthy ∧
    overallStatus ConnStatus.online PortStatus.openP AuthStatus.auth_failed r
      = Overall.degraded := by
  intro c p a r
  refine ⟨?_, ?_, ?_, ?_, ?_, ?_, ?_⟩ <;> revert c p a r <;> decide

theorem overall_status_precedence_witness :
    overallStatus ConnStatus.offline PortStatus.openP AuthStatus.authenticated ResStatus.healthy
      = Overall.unhealthy :=
  (overall_status_precedence ConnStatus.offline PortStatus.openP
    AuthStatus.authenticated ResStatus.healthy).1 rfl

/-- C3 counterexample: probing a host that refuses TCP connections on all
probed ports still performs an SSH authentication attempt (stage 3 is not
skipped), contradicting the claim that no authentication attempt is made. -/
theorem refusing_host_still_attempts_auth :
    (perform_health_check refusingWorld).1.overall = Overall.unhealthy ∧
    Event.sshConnect ∈ (perform_health_check refusingWorld).2 := by
  decide

lemma resQuery_not_in_socketProbe (w : World) :
    ∀ ps, Event.resQuery ∉ (socketProbe w ps).2 := by
  intro ps
  induction ps with
  | nil => simp [socketProbe]
  | cons p rest ih =>
    by_cases h : w.portOpen p = true
    · simp [socketProbe, h]
    · simp only [socketProbe, Bool.not_eq_true] at h ⊢
      simp [h, ih]

lemma resQuery_not_in_conn (w : World) :
    Event.resQuery ∉ (test_connectivity_detailed w).2 := by
  unfold test_connectivity_detailed
  cases hav : w.pingAvail <;> rcases hw : w.ping with h | h | h <;>
    simp [resQuery_not_in_socketProbe]

lemma resQuery_not_in_port (w : World) :
    Event.resQuery ∉ (test_ssh_port_detailed w).2 := by
  unfold test_ssh_port_detailed
  split <;> simp

lemma resQuery_not_in_auth (w : World) :
    Event.resQuery ∉ (test_ssh_authentication_detailed w).2 := by
  unfold test_ssh_authentication_detailed
  cases hk : w.keyExists <;> rcases hs : w.sshAuth with h | h | h | h <;> simp

lemma sshConnect_in_auth {w : World} (hk : w.keyExists = true) :
    Event.sshConnect ∈ (test_ssh_authentication_detailed w).2 := by
  unfold test_ssh_authentication_detailed
  rcases hs : w.sshAuth with h | h | h | h <;> simp [hk]

lemma recommendations_ne_nil :
    ∀ (c : ConnStatus) (p : PortStatus) (a : AuthStatus) (r : ResStatus),
    generate_troubleshooting_recommendations c p a r ≠ [] := by
  decide

/-- C3 amended: for every world in which the host refuses TCP connections on
all ports (so ping does not succeed and the SSH handshake cannot complete),
the probe reports overall unhealthy with a non-empty remediation list and
performs no resource query (stage 4 is skipped), but stage 3 is not skipped:
whenever an SSH key is configured an authentication attempt is still made
against the host. -/
theorem refusing_host_classification (w : World)
    (hport : ∀ p, w.portOpen p = false) (hping : w.ping ≠ PingOut.rcZero)
    (hssh : w.sshAuth ≠ SshOutcome.ok) :
    (perform_health_check w).1.overall = Overall.unhealthy ∧
    (perform_health_check w).1.troubleshooting ≠ [] ∧
    Event.resQuery ∉ (perform_health_check w).2 ∧
    (w.keyExists = true → Event.sshConnect ∈ (perform_health_check w).2) := by
  have hsock : socketProbe w [22, 80, 443] =
      (false, [Event.portProbe 22, Event.portProbe 80, Event.portProbe 443]) := by
    simp [socketProbe, hport]
  have hconn : (test_connectivity_detailed w).1 = ConnStatus.offline := by
    unfold test_connectivity_detailed
    cases hav : w.pingAvail <;> rcases hw : w.ping with h | h | h <;>
      simp_all [hsock, hw]
  have hauth : (test_ssh_authentication_detailed w).1 ≠ AuthStatus.authenticated := by
    unfold test_ssh_authentication_detailed
    cases hk : w.keyExists <;> rcases hs : w.sshAuth with h | h | h | h <;> simp_all
  have he4 : (if (test_ssh_authentication_detailed w).1 = AuthStatus.authenticated
      then check_system_resources_detailed w
      else (ResStatus.unknown, ([] : List Event))) = (ResStatus.unknown, []) :=
    if_neg hauth
  refine ⟨?_, ?_, ?_, ?_⟩
  · show overallStatus (test_connectivity_detailed w).1 (test_ssh_port_detailed w).1
      (test_ssh_authentication_detailed w).1 _ = Overall.unhealthy
    rw [hconn]
    simp [overallStatus]
  · exact recommendations_ne_nil _ _ _ _
  · show Event.resQuery ∉ (test_connectivity_detailed w).2 ++ (test_ssh_port_detailed w).2 ++
      (test_ssh_authentication_detailed w).2 ++
      (if (test_ssh_authentication_detailed w).1 = AuthStatus.authenticated
        then check_system_resources_detailed w else (ResStatus.unknown, [])).2
    rw [he4]
    simp only [List.append_nil, List.mem_append]
    push_neg
    exact ⟨⟨resQuery_not_in_conn w, resQuery_not_in_port w⟩, resQuery_not_in_auth w⟩
  · intro hk
    show Event.sshConnect ∈ (test_connectivity_detailed w).2 ++ (test_ssh_port_detailed w).2 ++
      (test_ssh_authentication_detailed w).2 ++
      (if (test_ssh_authentication_detailed w).1 = AuthStatus.authenticated
        then check_system_resources_detailed w else (ResStatus.unknown, [])).2
    exact List.mem_append_left _ (List.mem_append_right _ (sshConnect_in_auth hk))

theorem refusing_host_classification_witness :
    (∀ p, refusingWorld.portOpen p = false) ∧ refusingWorld.ping ≠ PingOut.rcZero ∧
    refusingWorld.sshAuth ≠ SshOutcome.ok ∧
    ((perform_health_check refusingWorld).1.overall = Overall.unhealthy ∧
     (perform_health_check refusingWorld).1.troubleshooting ≠ [] ∧
     Event.resQuery ∉ (perform_health_check refusingWorld).2 ∧
     (refusingWorld.keyExists = true →
       Event.sshConnect ∈ (perform_health_check refusingWorld).2)) :=
  ⟨fun _ => rfl, by decide, by decide,
   refusing_host_classification refusingWorld (fun _ => rfl) (by decide) (by decide)⟩

lemma fsRead_fsWrite_self (fs : FS) (k v : Str) : fsRead (fsWrite fs k v) k = some v := by
  induction fs with
  | nil => simp [fsWrite, fsRead]
  | cons e rest ih =>
    by_cases h : e.1 = k
    · simp [fsWrite, h, fsRead]
    · simp [fsWrite, if_neg h, fsRead, h, ih]

lemma fsRead_fsWrite_ne (fs : FS) {k k' : Str} (v : Str) (h : k' ≠ k) :
    fsRead (fsWrite fs k v) k' = fsRead fs k' := by
  induction fs with
  | nil =>
    have hne : ¬ k = k' := fun hh => h hh.symm
    simp [fsWrite, fsRead, hne]
  | cons e rest ih =>
    by_cases he : e.1 = k
    · subst he
      have hne : ¬ e.1 = k' := fun hh => h hh.symm
      simp only [fsWrite, if_pos rfl]
      simp [fsRead, hne]
    · simp only [fsWrite, if_neg he]
      by_cases he' : e.1 = k'
      · simp [fsRead, he']
      · simp [fsRead, he', ih]

lemma fsRead_fsRemove_ne (fs : FS) {k k' : Str} (h : k' ≠ k) :
    fsRead (fsRemove fs k) k' = fsRead fs k' := by
  induction fs with
  | nil => rfl
  | cons e rest ih =>
    by_cases he : e.1 = k
    · simp only [fsRemove, if_pos he, ih]
      have : e.1 ≠ k' := fun hh => h (he ▸ hh).symm
      simp [fsRead, this]
    · simp only [fsRemove, if_neg he]
      by_cases he' : e.1 = k'
      · simp [fsRead, he']
      · simp [fsRead, he', ih]

lemma mem_fsKeys_of_fsRead {fs : FS} {k v : Str} (h : fsRead fs k = some v) :
    k ∈ fsKeys fs := by
  induction fs with
  | nil => cases h
  | cons e rest ih =>
    by_cases he : e.1 = k
    · exact he ▸ List.mem_map.mpr ⟨e, List.mem_cons_self e rest, rfl⟩
    · simp only [fsRead, if_neg he] at h
      exact List.mem_cons_of_mem _ (ih h)

lemma fsKeys_fsWrite (fs : FS) (k v : Str) :
    fsKeys (fsWrite fs k v) = if k ∈ fsKeys fs then fsKeys fs else fsKeys fs ++ [k] := by
  induction fs with
  | nil => simp [fsWrite, fsKeys]
  | cons e rest ih =>
    by_cases h : e.1 = k
    · subst h
      simp [fsWrite, fsKeys]
    · have hne : ¬ k = e.1 := fun hh => h hh.symm
      simp only [fsWrite, if_neg h, fsKeys, List.map_cons, List.mem_cons]
      simp only [fsKeys] at ih
      by_cases hk : k ∈ List.map (fun e => e.1) rest
      · rw [if_pos (Or.inr hk), ih, if_pos hk]
      · rw [if_neg (by simp [hne, hk]), ih, if_neg hk]
        simp

lemma fsKeys_fsRemove_subset {fs : FS} {k k' : Str} (h : k' ∈ fsKeys (fsRemove fs k)) :
    k' ∈ fsKeys fs := by
  induction fs with
  | nil => cases h
  | cons e rest ih =>
    by_cases he : e.1 = k
    · simp only [fsRemove, if_pos he] at h
      exact List.mem_cons_of_mem _ (ih h)
    · simp only [fsRemove, if_neg he, fsKeys, List.map_cons, List.mem_cons] at h ⊢
      rcases h with h | h
      · exact Or.inl h
      · exact Or.inr (ih h)

lemma countKeys_fsWrite (p : Str → Bool) (fs : FS) (k v : Str) :
    countKeys p (fsWrite fs k v) =
      countKeys p fs + (if k ∈ fsKeys fs then 0 else (if p k then 1 else 0)) := by
  unfold countKeys
  rw [fsKeys_fsWrite]
  by_cases h : k ∈ fsKeys fs
  · simp [h]
  · simp only [if_neg h, List.countP_append, List.countP_cons, List.countP_nil]
    cases hp : p k <;> simp [hp]

lemma countKeys_fsWrite_existing (p : Str → Bool) (fs : FS) (k v : Str)
    (h : k ∈ fsKeys fs) : countKeys p (fsWrite fs k v) = countKeys p fs := by
  rw [countKeys_fsWrite, if_pos h]
  simp

lemma countKeys_fsWrite_not_counted (p : Str → Bool) (fs : FS) (k v : Str)
    (h : p k = false) : countKeys p (fsWrite fs k v) = countKeys p fs := by
  rw [countKeys_fsWrite, h]
  split <;> simp

lemma countKeys_fsWrite_new (p : Str → Bool) (fs : FS) (k v : Str)
    (hk : k ∉ fsKeys fs) (hp : p k = true) :
    countKeys p (fsWrite fs k v) = countKeys p fs + 1 := by
  rw [countKeys_fsWrite, if_neg hk, hp]
  simp

lemma countKeys_fsRemove_not_counted (p : Str → Bool) (fs : FS) (k : Str)
    (h : p k = false) : countKeys p (fsRemove fs k) = countKeys p fs := by
  unfold countKeys fsKeys
  induction fs with
  | nil => rfl
  | cons e rest ih =>
    by_cases he : e.1 = k
    · simp only [fsRemove, if_pos he]
      rw [ih]
      simp [List.countP_cons, he, h]
    · simp only [fsRemove, if_neg he, List.map_cons, List.countP_cons]
      rw [ih]

lemma mem_fsKeys_fsWrite {fs : FS} {k k' : Str} {v : Str} (h : k' ∈ fsKeys (fsWrite fs k v)) :
    k' ∈ fsKeys fs ∨ k' = k := by
  rw [fsKeys_fsWrite] at h
  by_cases hk : k ∈ fsKeys fs
  · rw [if_pos hk] at h
    exact Or.inl h
  · rw [if_neg hk] at h
    rcases List.mem_append.mp h with h1 | h1
    · exact Or.inl h1
    · simp at h1
      exact Or.inr h1

lemma getD_append_left (l l' : Str) (n : Nat) (h : n < l.length) (d : Char) :
    (l ++ l').getD n d = l.getD n d := by
  induction l generalizing n with
  | nil => simp at h
  | cons a t ih =>
    cases n with
    | zero => rfl
    | succ m =>
      have hm : m < t.length := by simpa using h
      simpa using ih m hm

/-- Two appends with fixed distinct suffixes are never equal: compare the
character at position n from the right. -/
lemma append_ne_append {s t : Str} (x y : Str) (n : Nat)
    (hs : n < s.length) (ht : n < t.length)
    (hne : s.reverse.getD n ' ' ≠ t.reverse.getD n ' ') :
    x ++ s ≠ y ++ t := by
  intro heq
  have h2 : s.reverse ++ x.reverse = t.reverse ++ y.reverse := by
    have h0 := congrArg List.reverse heq
    simpa [List.reverse_append] using h0
  have h3 : (s.reverse ++ x.reverse).getD n ' ' = (t.reverse ++ y.reverse).getD n ' ' := by
    rw [h2]
  rw [getD_append_left _ _ _ (by simpa using hs),
    getD_append_left _ _ _ (by simpa using ht)] at h3
  exact hne h3

lemma currentFileOf_ne_passwordFileOf (s u s' u' ts : Str) :
    currentFileOf s u ≠ passwordFileOf s' u' ts := by
  unfold currentFileOf passwordFileOf
  exact append_ne_append _ _ 1 (by decide) (by decide) (by decide)

lemma currentFileOf_ne_encryptedFileOf (s u s' u' ts : Str) :
    currentFileOf s u ≠ encryptedFileOf s' u' ts := by
  unfold currentFileOf encryptedFileOf
  exact append_ne_append _ _ 1 (by decide) (by decide) (by decide)

lemma currentFileOf_ne_timestampFileOf (s u s' u' : Str) :
    currentFileOf s u ≠ timestampFileOf s' u' := by
  unfold currentFileOf timestampFileOf
  exact append_ne_append _ _ 0 (by decide) (by decide) (by decide)

lemma timestampFileOf_ne_passwordFileOf (s u s' u' ts : Str) :
    timestampFileOf s u ≠ passwordFileOf s' u' ts := by
  unfold timestampFileOf passwordFileOf
  exact append_ne_append _ _ 0 (by decide) (by decide) (by decide)

lemma timestampFileOf_ne_encryptedFileOf (s u s' u' ts : Str) :
    timestampFileOf s u ≠ encryptedFileOf s' u' ts := by
  unfold timestampFileOf encryptedFileOf
  exact append_ne_append _ _ 0 (by decide) (by decide) (by decide)

lemma passwordFileOf_ne_encryptedFileOf (s u s' u' ts ts' : Str) :
    passwordFileOf s u ts ≠ encryptedFileOf s' u' ts' := by
  unfold passwordFileOf encryptedFileOf
  exact append_ne_append _ _ 1 (by decide) (by decide) (by decide)

lemma exists_cons_of_append {l : Str} {c : Char} {t : Str} (h : l = c :: t) (r : Str) :
    ∃ t', l ++ r = c :: t' :=
  ⟨t ++ r, by rw [h]; rfl⟩

lemma keyBase_cons (s u : Str) : ∃ t, keyBase s u = '/' :: t := by
  have hv : VAULT_DIR = '/' :: "home/brian/playbooks/vault".data := by decide
  unfold keyBase
  obtain ⟨t1, h1⟩ := exists_cons_of_append hv "/".data
  obtain ⟨t2, h2⟩ := exists_cons_of_append h1 s
  obtain ⟨t3, h3⟩ := exists_cons_of_append h2 "_".data
  exact exists_cons_of_append h3 u

lemma encryptedFileOf_cons (s u ts : Str) : ∃ t, encryptedFileOf s u ts = '/' :: t := by
  obtain ⟨t1, h1⟩ := keyBase_cons s u
  unfold encryptedFileOf vaultDirFor
  obtain ⟨t2, h2⟩ := exists_cons_of_append h1 "_".data
  obtain ⟨t3, h3⟩ := exists_cons_of_append h2 ts
  exact exists_cons_of_append h3 "/password.txt.vault".data

lemma reverse_append_cons (x s : Str) (c : Char) (t : Str) (h : s.reverse = c :: t) :
    ∃ t', (x ++ s).reverse = c :: t' := by
  rw [List.reverse_append, h]
  exact ⟨t ++ x.reverse, rfl⟩

lemma pyStrip_of_shape (c1 c2 : Char) {k : Str} (h1 : isPySpace c1 = false)
    (h2 : isPySpace c2 = false) (hk1 : ∃ t, k = c1 :: t) (hk2 : ∃ t, k.reverse = c2 :: t) :
    pyStrip k = k := by
  obtain ⟨t1, ht1⟩ := hk1
  obtain ⟨t2, ht2⟩ := hk2
  refine pyStrip_eq_self ?_ ?_
  · rw [ht1]
    exact dropWhile_cons_of_false h1
  · rw [ht2]
    exact dropWhile_cons_of_false h2

lemma pyStrip_encryptedFileOf (s u ts : Str) :
    pyStrip (encryptedFileOf s u ts) = encryptedFileOf s u ts := by
  refine pyStrip_of_shape '/' 't' (by decide) (by decide) (encryptedFileOf_cons s u ts) ?_
  unfold encryptedFileOf
  exact reverse_append_cons _ _ 't' "luav.txt.drowssap/".data (by decide)

/-- C1 counterexample: with an existing CurrentPointer, a mint whose
encryption step fails (nonzero ansible-vault return code) leaves the pointer
overwritten with the failed attempt's plaintext file path, not the prior
value. -/
theorem failed_encrypt_clobbers_pointer_cex :
    ((create_vault_structure "db1".data "admin".data "pw1".data "TS1".data "T0".data
        (fun s => s) false
        [(currentFileOf "db1".data "admin".data, "OLD".data)]).1).success = false ∧
    fsRead (create_vault_structure "db1".data "admin".data "pw1".data "TS1".data "T0".data
        (fun s => s) false
        [(currentFileOf "db1".data "admin".data, "OLD".data)]).2
      (currentFileOf "db1".data "admin".data) ≠ some "OLD".data := by
  constructor
  · rfl
  · decide

/-- C1 amended: when the encryption step of a mint/rotate fails, the
operation reports failure but the CurrentPointer has already been rewritten
to reference the failed attempt's plaintext password file, which is still
present on disk; the prior pointer value is lost. -/
theorem failed_encrypt_pointer_state (server username password ts ctime : Str)
    (encFn : Str → Str) (fs : FS) :
    ((create_vault_structure server username password ts ctime encFn false fs).1).success
      = false ∧
    fsRead (create_vault_structure server username password ts ctime encFn false fs).2
      (currentFileOf server username) = some (passwordFileOf server username ts) ∧
    fsRead (create_vault_structure server username password ts ctime encFn false fs).2
      (passwordFileOf server username ts) = some password := by
  unfold create_vault_structure
  simp only [Bool.false_eq_true, if_false]
  refine ⟨trivial, ?_, ?_⟩
  · rw [fsRead_fsWrite_ne _ _ (currentFileOf_ne_timestampFileOf server username server username)]
    exact fsRead_fsWrite_self _ _ _
  · rw [fsRead_fsWrite_ne _ _
      (timestampFileOf_ne_passwordFileOf server username server username ts).symm]
    rw [fsRead_fsWrite_ne _ _
      (currentFileOf_ne_passwordFileOf server username server username ts).symm]
    exact fsRead_fsWrite_self _ _ _

lemma create_vault_structure_true (server username password ts ctime : Str)
    (encFn : Str → Str) (fs : FS) :
    create_vault_structure server username password ts ctime encFn true fs =
      ({ success := true, encrypted_file := some (encryptedFileOf server username ts),
         timestamp := some ts },
       fsWrite (fsRemove (fsWrite (fsWrite (fsWrite (fsWrite fs
         (passwordFileOf server username ts) password)
         (currentFileOf server username) (passwordFileOf server username ts))
         (timestampFileOf server username) ctime)
         (encryptedFileOf server username ts) (encFn password))
         (passwordFileOf server username ts))
         (currentFileOf server username) (encryptedFileOf server username ts)) := rfl

lemma create_success_reads (server username password ts ctime : Str)
    (encFn : Str → Str) (fs : FS) :
    ((create_vault_structure server username password ts ctime encFn true fs).1).success
      = true ∧
    fsRead (create_vault_structure server username password ts ctime encFn true fs).2
      (currentFileOf server username) = some (encryptedFileOf server username ts) ∧
    fsRead (create_vault_structure server username password ts ctime encFn true fs).2
      (encryptedFileOf server username ts) = some (encFn password) ∧
    fsRead (create_vault_structure server username password ts ctime encFn true fs).2
      (timestampFileOf server username) = some ctime := by
  rw [create_vault_structure_true]
  refine ⟨rfl, ?_, ?_, ?_⟩
  · exact fsRead_fsWrite_self _ _ _
  · rw [fsRead_fsWrite_ne _ _
      (currentFileOf_ne_encryptedFileOf server username server username ts).symm]
    rw [fsRead_fsRemove_ne _
      (passwordFileOf_ne_encryptedFileOf server username server username ts ts).symm]
    exact fsRead_fsWrite_self _ _ _
  · rw [fsRead_fsWrite_ne _ _
      (currentFileOf_ne_timestampFileOf server username server username).symm]
    rw [fsRead_fsRemove_ne _
      (timestampFileOf_ne_passwordFileOf server username server username ts)]
    rw [fsRead_fsWrite_ne _ _
      (timestampFileOf_ne_encryptedFileOf server username server username ts)]
    exact fsRead_fsWrite_self _ _ _

lemma generated_password_clean (L : Nat) (r : Rand) (hr : GoodShuffle r) :
    pyStrip (generate_secure_password L r) = generate_secure_password L r := by
  refine pyStrip_eq_self_of_clean ?_
  intro c hc
  have hall : c ∈ allChars := mem_generate_all hr hc
  have hno : ∀ c ∈ allChars, isPySpace c = false := by decide
  exact hno c hall

/-- C5: round-trip — if mint_and_store succeeds with minted plaintext p, an
immediately following retrieve returns exactly p.  The ansible-vault cipher
round-trip (an external-tool behaviour) is the hypothesis hcipher; the minted
plaintext contains no whitespace, so the source's stdout .strip() returns it
byte-for-byte. -/
theorem mint_then_retrieve_roundtrip (server username : Str) (L : Nat) (r : Rand)
    (hr : GoodShuffle r) (ts ctime now : Str) (encFn : Str → Str)
    (decFn : Str → Option Str) (hcipher : ∀ p, decFn (encFn p) = some p) (fs : FS) :
    (mint_and_store server username L r ts ctime encFn true fs).2.1.success = true ∧
    (retrieve_password_from_vault server username decFn now
        (mint_and_store server username L r ts ctime encFn true fs).2.2).1
      = { success := true,
          password := some (mint_and_store server username L r ts ctime encFn true fs).1 } := by
  obtain ⟨h1, h2, h3, _⟩ :=
    create_success_reads server username (generate_secure_password L r) ts ctime encFn fs
  refine ⟨h1, ?_⟩
  unfold mint_and_store at *
  unfold retrieve_password_from_vault
  simp only [h2, pyStrip_encryptedFileOf, h3, hcipher,
    generated_password_clean L r hr]

lemma tagDec_tagEnc : ∀ p, tagDec (tagEnc p) = some p := fun _ => rfl

theorem mint_then_retrieve_roundtrip_witness :
    (mint_and_store "db1".data "admin".data 12 idRand "TS1".data "T0".data
      tagEnc true []).2.1.success = true ∧
    (retrieve_password_from_vault "db1".data "admin".data tagDec "T1".data
        (mint_and_store "db1".data "admin".data 12 idRand "TS1".data "T0".data
          tagEnc true []).2.2).1
      = { success := true,
          password := some (mint_and_store "db1".data "admin".data 12 idRand "TS1".data
            "T0".data tagEnc true []).1 } :=
  mint_then_retrieve_roundtrip "db1".data "admin".data 12 idRand idRand_good
    "TS1".data "T0".data "T1".data tagEnc tagDec tagDec_tagEnc []

/-- C8: every retrieve appends exactly one audit entry whether it succeeds
(success entry) or fails for any reason — no pointer, missing vault file, or
decryption failure all take the failure branch (failed entry). -/
theorem retrieve_always_audited (actor server username : Str) (decFn : Str → Option Str)
    (now : Str) (fs : FS) (log : List AuditEntry) :
    ∃ e : AuditEntry,
      (retrieve_password_endpoint actor server username decFn now fs log).2.2 = log ++ [e] ∧
      (retrieve_password_endpoint actor server username decFn now fs log).2.2.length
        = log.length + 1 ∧
      e.action = "retrieve".data ∧
      (e.status = "success".data ↔
        (retrieve_password_from_vault server username decFn now fs).1.success = true) := by
  by_cases h : (retrieve_password_from_vault server username decFn now fs).1.success = true
  · refine ⟨AuditEntry.mk now actor "retrieve".data server username "success".data,
      ?_, ?_, rfl, by simp [h]⟩
    · simp [retrieve_password_endpoint, h, log_action]
    · simp [retrieve_password_endpoint, h, log_action]
  · refine ⟨AuditEntry.mk now actor "retrieve".data server username "failed".data,
      ?_, ?_, rfl, ?_⟩
    · simp [retrieve_password_endpoint, h, log_action]
    · simp [retrieve_password_endpoint, h, log_action]
    · constructor
      · intro hContra
        have hx : "failed".data = "success".data := hContra
        exact absurd hx (by decide)
      · intro hTrue
        exact absurd hTrue h

/-- C9: storage-key aliasing.  Scope a_b with principal c and scope a with
principal b_c share one pointer filename; list_all_passwords, splitting at
the first underscore, reports the secret minted for (a_b, c) under (a, b_c);
and a later mint for (a, b_c) overwrites the shared pointer, so retrieval
for (a_b, c) returns the other identity's password. -/
theorem underscore_key_aliasing :
    currentFileOf "a_b".data "c".data = currentFileOf "a".data "b_c".data ∧
    list_all_passwords
        (create_vault_structure "a_b".data "c".data "pw1".data "TS1".data "T1".data
          tagEnc true []).2
      = [{ server := "a".data, username := "b_c".data, last_updated := some "T1".data }] ∧
    (retrieve_password_from_vault "a_b".data "c".data tagDec "T9".data
        (create_vault_structure "a".data "b_c".data "pw2".data "TS2".data "T2".data tagEnc true
          (create_vault_structure "a_b".data "c".data "pw1".data "TS1".data "T1".data
            tagEnc true []).2).2).1.password = some "pw2".data := by
  refine ⟨by decide, by decide, by decide⟩

lemma isPrefixOf_append_self : ∀ (x y : Str), x.isPrefixOf (x ++ y) = true
  | [], _ => by simp [List.isPrefixOf]
  | c :: t, y => by simp [List.isPrefixOf, isPrefixOf_append_self t y]

lemma dirEntry_encryptedFileOf (s u ts : Str) :
    dirEntry (encryptedFileOf s u ts) = none := by
  have hshape : encryptedFileOf s u ts
      = (VAULT_DIR ++ "/".data) ++
        (s ++ "_".data ++ u ++ "_".data ++ ts ++ "/password.txt.vault".data) := by
    unfold encryptedFileOf vaultDirFor keyBase
    simp [List.append_assoc]
  rw [hshape]
  unfold dirEntry
  rw [if_pos (isPrefixOf_append_self _ _)]
  simp only [List.drop_left]
  have hmem : '/' ∈ s ++ "_".data ++ u ++ "_".data ++ ts ++ "/password.txt.vault".data :=
    List.mem_append_right _ (by decide)
  rw [if_pos hmem]

/-- C7 counterexample: after a mint with creation time T0 and one successful
retrieval at time T1, list_all_passwords reports last_updated T1 — the
retrieval time, not the creation timestamp of the version the pointer
references. -/
theorem last_updated_changed_by_retrieval_cex :
    (retrieve_password_from_vault "db1".data "admin".data tagDec "T1".data
        (create_vault_structure "db1".data "admin".data "pw1".data "TS1".data "T0".data
          tagEnc true []).2).1.success = true ∧
    list_all_passwords
        (retrieve_password_from_vault "db1".data "admin".data tagDec "T1".data
          (create_vault_structure "db1".data "admin".data "pw1".data "TS1".data "T0".data
            tagEnc true []).2).2
      = [{ server := "db1".data, username := "admin".data,
           last_updated := some "T1".data }] ∧
    some "T1".data ≠ some "T0".data := by
  refine ⟨by decide, by decide, by decide⟩

/-- C7 amended: last_updated is the content of the per-pair timestamp file:
written at mint time but overwritten with the current time by every
successful retrieval (last-access semantics), so after a mint and a
successful retrieval at time now the listing reports the retrieval time.
When the timestamp file is absent the source falls back to the password
file's filesystem modification time. -/
theorem last_updated_is_last_access (pw ts ctime now : Str) (encFn : Str → Str)
    (decFn : Str → Option Str) (hcipher : ∀ p, decFn (encFn p) = some p) :
    (retrieve_password_from_vault "db1".data "admin".data decFn now
        (create_vault_structure "db1".data "admin".data pw ts ctime encFn true []).2).1.success
      = true ∧
    list_all_passwords
        (retrieve_password_from_vault "db1".data "admin".data decFn now
          (create_vault_structure "db1".data "admin".data pw ts ctime encFn true []).2).2
      = [{ server := "db1".data, username := "admin".data,
           last_updated := some (pyStrip now) }] := by
  have hne1 : passwordFileOf "db1".data "admin".data ts ≠ currentFileOf "db1".data "admin".data :=
    (currentFileOf_ne_passwordFileOf _ _ _ _ _).symm
  have hne2 : passwordFileOf "db1".data "admin".data ts
      ≠ timestampFileOf "db1".data "admin".data :=
    (timestampFileOf_ne_passwordFileOf _ _ _ _ _).symm
  have hne3 : currentFileOf "db1".data "admin".data ≠ timestampFileOf "db1".data "admin".data :=
    currentFileOf_ne_timestampFileOf _ _ _ _
  have hne4 : passwordFileOf "db1".data "admin".data ts
      ≠ encryptedFileOf "db1".data "admin".data ts :=
    passwordFileOf_ne_encryptedFileOf _ _ _ _ _ _
  have hne5 : currentFileOf "db1".data "admin".data
      ≠ encryptedFileOf "db1".data "admin".data ts :=
    currentFileOf_ne_encryptedFileOf _ _ _ _ _
  have hne6 : timestampFileOf "db1".data "admin".data
      ≠ encryptedFileOf "db1".data "admin".data ts :=
    timestampFileOf_ne_encryptedFileOf _ _ _ _ _
  have hfs6 : (create_vault_structure "db1".data "admin".data pw ts ctime encFn true []).2
      = [(currentFileOf "db1".data "admin".data, encryptedFileOf "db1".data "admin".data ts),
         (timestampFileOf "db1".data "admin".data, ctime),
         (encryptedFileOf "db1".data "admin".data ts, encFn pw)] := by
    rw [create_vault_structure_true]
    simp [fsWrite, fsRemove, hne1, hne2, hne3, hne4, hne5, hne6,
      hne1.symm, hne2.symm, hne4.symm]
  have hread_cur : fsRead
      [(currentFileOf "db1".data "admin".data, encryptedFileOf "db1".data "admin".data ts),
       (timestampFileOf "db1".data "admin".data, ctime),
       (encryptedFileOf "db1".data "admin".data ts, encFn pw)]
      (currentFileOf "db1".data "admin".data)
      = some (encryptedFileOf "db1".data "admin".data ts) := by
    simp [fsRead]
  have hread_enc : fsRead
      [(currentFileOf "db1".data "admin".data, encryptedFileOf "db1".data "admin".data ts),
       (timestampFileOf "db1".data "admin".data, ctime),
       (encryptedFileOf "db1".data "admin".data ts, encFn pw)]
      (encryptedFileOf "db1".data "admin".data ts) = some (encFn pw) := by
    simp [fsRead, hne5, hne6]
  have hret : retrieve_password_from_vault "db1".data "admin".data decFn now
      (create_vault_structure "db1".data "admin".data pw ts ctime encFn true []).2
      = ({ success := true, password := some (pyStrip pw) },
         [(currentFileOf "db1".data "admin".data, encryptedFileOf "db1".data "admin".data ts),
          (timestampFileOf "db1".data "admin".data, now),
          (encryptedFileOf "db1".data "admin".data ts, encFn pw)]) := by
    rw [hfs6]
    unfold retrieve_password_from_vault
    simp only [hread_cur, pyStrip_encryptedFileOf, hread_enc, hcipher,
      update_password_timestamp]
    simp [fsWrite, hne3, hne3.symm]
  refine ⟨by rw [hret], ?_⟩
  rw [hret]
  have hd1 : dirEntry (currentFileOf "db1".data "admin".data)
      = some "db1_admin_current".data := by decide
  have hd2 : dirEntry (timestampFileOf "db1".data "admin".data)
      = some "db1_admin_timestamp".data := by decide
  have hd3 := dirEntry_encryptedFileOf "db1".data "admin".data ts
  have hrep : pyReplace "db1_admin_current".data "_current".data []
      = "db1_admin".data := by decide
  have hsplit : pySplitOnce '_' "db1_admin".data = ["db1".data, "admin".data] := by decide
  have hreadts : fsRead
      [(currentFileOf "db1".data "admin".data, encryptedFileOf "db1".data "admin".data ts),
       (timestampFileOf "db1".data "admin".data, now),
       (encryptedFileOf "db1".data "admin".data ts, encFn pw)]
      (timestampFileOf "db1".data "admin".data) = some now := by
    simp [fsRead, hne3]
  simp +decide [list_all_passwords, listdirVault, hd1, hd2, hd3, hrep, hsplit, hreadts]

theorem last_updated_is_last_access_witness :
    (retrieve_password_from_vault "db1".data "admin".data tagDec "T5".data
        (create_vault_structure "db1".data "admin".data "pw7".data "TS7".data "T4".data
          tagEnc true []).2).1.success = true ∧
    list_all_passwords
        (retrieve_password_from_vault "db1".data "admin".data tagDec "T5".data
          (create_vault_structure "db1".data "admin".data "pw7".data "TS7".data "T4".data
            tagEnc true []).2).2
      = [{ server := "db1".data, username := "admin".data,
           last_updated := some (pyStrip "T5".data) }] :=
  last_updated_is_last_access "pw7".data "TS7".data "T4".data "T5".data
    tagEnc tagDec tagDec_tagEnc

lemma isSuffixOf_append_self (x y : Str) : y.isSuffixOf (x ++ y) = true := by
  unfold List.isSuffixOf
  rw [List.reverse_append]
  exact isPrefixOf_append_self _ _

lemma exists_of_isPrefixOf : ∀ (s k : Str), s.isPrefixOf k = true → ∃ w, k = s ++ w
  | [], k, _ => ⟨k, rfl⟩
  | c :: t, [], h => by simp [List.isPrefixOf] at h
  | c :: t, d :: k, h => by
    rw [List.isPrefixOf, Bool.and_eq_true, beq_iff_eq] at h
    obtain ⟨w, hw⟩ := exists_of_isPrefixOf t k h.2
    exact ⟨w, by rw [h.1, hw]; rfl⟩

lemma exists_of_isSuffixOf {s k : Str} (h : s.isSuffixOf k = true) : ∃ w, k = w ++ s := by
  unfold List.isSuffixOf at h
  obtain ⟨w, hw⟩ := exists_of_isPrefixOf _ _ h
  refine ⟨w.reverse, ?_⟩
  have h2 := congrArg List.reverse hw
  simpa [List.reverse_append] using h2

lemma encryptedFileOf_shape (s u ts : Str) :
    encryptedFileOf s u ts = versionKeyStem s u ++ (ts ++ versionKeySuffix) := by
  unfold encryptedFileOf vaultDirFor versionKeyStem versionKeySuffix
  simp [List.append_assoc]

lemma isVersionKey_encryptedFileOf (s u ts : Str) :
    isVersionKey s u (encryptedFileOf s u ts) = true := by
  unfold isVersionKey
  have h1 : (versionKeyStem s u).isPrefixOf (encryptedFileOf s u ts) = true := by
    rw [encryptedFileOf_shape]
    exact isPrefixOf_append_self _ _
  have h2 : versionKeySuffix.isSuffixOf (encryptedFileOf s u ts) = true := by
    unfold encryptedFileOf
    exact isSuffixOf_append_self _ _
  have h3 : (versionKeyStem s u).length + versionKeySuffix.length
      ≤ (encryptedFileOf s u ts).length := by
    rw [encryptedFileOf_shape]
    simp [List.length_append]
  simp [h1, h2, h3]

lemma isVersionKey_currentFileOf (s u s' u' : Str) :
    isVersionKey s u (currentFileOf s' u') = false := by
  unfold isVersionKey
  cases hsuf : versionKeySuffix.isSuffixOf (currentFileOf s' u') with
  | false => simp [hsuf]
  | true =>
    obtain ⟨w, hw⟩ := exists_of_isSuffixOf hsuf
    have hne : keyBase s' u' ++ "_current".data ≠ w ++ versionKeySuffix :=
      append_ne_append _ _ 1 (by decide) (by decide) (by decide)
    exact absurd hw hne

lemma isVersionKey_timestampFileOf (s u s' u' : Str) :
    isVersionKey s u (timestampFileOf s' u') = false := by
  unfold isVersionKey
  cases hsuf : versionKeySuffix.isSuffixOf (timestampFileOf s' u') with
  | false => simp [hsuf]
  | true =>
    obtain ⟨w, hw⟩ := exists_of_isSuffixOf hsuf
    have hne : keyBase s' u' ++ "_timestamp".data ≠ w ++ versionKeySuffix :=
      append_ne_append _ _ 0 (by decide) (by decide) (by decide)
    exact absurd hw hne

lemma isVersionKey_passwordFileOf (s u s' u' ts : Str) :
    isVersionKey s u (passwordFileOf s' u' ts) = false := by
  unfold isVersionKey
  cases hsuf : versionKeySuffix.isSuffixOf (passwordFileOf s' u' ts) with
  | false => simp [hsuf]
  | true =>
    obtain ⟨w, hw⟩ := exists_of_isSuffixOf hsuf
    have hne : vaultDirFor s' u' ts ++ "/password.txt".data ≠ w ++ versionKeySuffix :=
      append_ne_append _ _ 1 (by decide) (by decide) (by decide)
    exact absurd hw hne

lemma encryptedFileOf_ts_injective {s u ts ts' : Str}
    (h : encryptedFileOf s u ts = encryptedFileOf s u ts') : ts = ts' := by
  rw [encryptedFileOf_shape, encryptedFileOf_shape] at h
  have h2 : ts ++ versionKeySuffix = ts' ++ versionKeySuffix :=
    List.append_cancel_left h
  exact List.append_cancel_right h2

lemma ne_of_isVersionKey_true_false {s u : Str} {k k' : Str}
    (h1 : isVersionKey s u k = true) (h2 : isVersionKey s u k' = false) : k ≠ k' := by
  intro heq
  rw [heq, h2] at h1
  cases h1

lemma mint_step (server username pw ts ctime : Str) (encFn : Str → Str) (fs : FS)
    (hfresh : encryptedFileOf server username ts ∉ fsKeys fs) :
    version_count server username
        (create_vault_structure server username pw ts ctime encFn true fs).2
      = version_count server username fs + 1 ∧
    fsRead (create_vault_structure server username pw ts ctime encFn true fs).2
        (currentFileOf server username) = some (encryptedFileOf server username ts) ∧
    fsRead (create_vault_structure server username pw ts ctime encFn true fs).2
        (encryptedFileOf server username ts) = some (encFn pw) ∧
    (∀ k, isVersionKey server username k = true → k ≠ encryptedFileOf server username ts →
      fsRead (create_vault_structure server username pw ts ctime encFn true fs).2 k
        = fsRead fs k) ∧
    (∀ k, k ∈ fsKeys (create_vault_structure server username pw ts ctime encFn true fs).2 →
      k ∈ fsKeys fs ∨ k = currentFileOf server username ∨
      k = timestampFileOf server username ∨ k = encryptedFileOf server username ts ∨
      k = passwordFileOf server username ts) := by
  obtain ⟨-, hc2, hc3, -⟩ := create_success_reads server username pw ts ctime encFn fs
  have hpwf := isVersionKey_passwordFileOf server username server username ts
  have hcur := isVersionKey_currentFileOf server username server username
  have htsk := isVersionKey_timestampFileOf server username server username
  have henc := isVersionKey_encryptedFileOf server username ts
  have hencnotin3 : encryptedFileOf server username ts
      ∉ fsKeys (fsWrite (fsWrite (fsWrite fs (passwordFileOf server username ts) pw)
        (currentFileOf server username) (passwordFileOf server username ts))
        (timestampFileOf server username) ctime) := by
    intro hmem
    rcases mem_fsKeys_fsWrite hmem with hmem2 | heq
    · rcases mem_fsKeys_fsWrite hmem2 with hmem3 | heq
      · rcases mem_fsKeys_fsWrite hmem3 with hmem4 | heq
        · exact hfresh hmem4
        · exact (passwordFileOf_ne_encryptedFileOf server username server username ts ts)
            heq.symm
      · exact (currentFileOf_ne_encryptedFileOf server username server username ts) heq.symm
    · exact (timestampFileOf_ne_encryptedFileOf server username server username ts) heq.symm
  refine ⟨?_, hc2, hc3, ?_, ?_⟩
  · simp only [create_vault_structure_true]
    unfold version_count
    rw [countKeys_fsWrite_not_counted _ _ _ _ hcur]
    rw [countKeys_fsRemove_not_counted _ _ _ hpwf]
    rw [countKeys_fsWrite_new _ _ _ _ hencnotin3 henc]
    rw [countKeys_fsWrite_not_counted _ _ _ _ htsk]
    rw [countKeys_fsWrite_not_counted _ _ _ _ hcur]
    rw [countKeys_fsWrite_not_counted _ _ _ _ hpwf]
  · intro k hk hkne
    simp only [create_vault_structure_true]
    have hkcur : k ≠ currentFileOf server username := ne_of_isVersionKey_true_false hk hcur
    have hktsk : k ≠ timestampFileOf server username := ne_of_isVersionKey_true_false hk htsk
    have hkpwf : k ≠ passwordFileOf server username ts :=
      ne_of_isVersionKey_true_false hk hpwf
    rw [fsRead_fsWrite_ne _ _ hkcur, fsRead_fsRemove_ne _ hkpwf,
      fsRead_fsWrite_ne _ _ hkne, fsRead_fsWrite_ne _ _ hktsk,
      fsRead_fsWrite_ne _ _ hkcur, fsRead_fsWrite_ne _ _ hkpwf]
  · intro k hk
    simp only [create_vault_structure_true] at hk
    rcases mem_fsKeys_fsWrite hk with hk1 | heq
    · have hk2 := fsKeys_fsRemove_subset hk1
      rcases mem_fsKeys_fsWrite hk2 with hk3 | heq
      · rcases mem_fsKeys_fsWrite hk3 with hk4 | heq
        · rcases mem_fsKeys_fsWrite hk4 with hk5 | heq
          · rcases mem_fsKeys_fsWrite hk5 with hk6 | heq
            · exact Or.inl hk6
            · exact Or.inr (Or.inr (Or.inr (Or.inr heq)))
          · exact Or.inr (Or.inl heq)
        · exact Or.inr (Or.inr (Or.inl heq))
      · exact Or.inr (Or.inr (Or.inr (Or.inl heq)))
    · exact Or.inr (Or.inl heq)

lemma runMints_spec (server username : Str) (encFn : Str → Str) :
    ∀ (ms : List MintInput) (fs : FS),
    (∀ m ∈ ms, encryptedFileOf server username m.ts ∉ fsKeys fs) →
    ms.Pairwise (fun a b => a.ts ≠ b.ts) →
    version_count server username (runMints server username encFn ms fs)
      = version_count server username fs + ms.length ∧
    (∀ m ∈ ms, fsRead (runMints server username encFn ms fs)
        (encryptedFileOf server username m.ts) = some (encFn m.pw)) ∧
    (∀ k, isVersionKey server username k = true →
      (∀ m ∈ ms, k ≠ encryptedFileOf server username m.ts) →
      fsRead (runMints server username encFn ms fs) k = fsRead fs k) ∧
    (∀ h : ms ≠ [], fsRead (runMints server username encFn ms fs)
        (currentFileOf server username)
      = some (encryptedFileOf server username (ms.getLast h).ts)) := by
  intro ms
  induction ms with
  | nil =>
    intro fs h0 hp
    refine ⟨by simp [runMints], by simp, ?_, ?_⟩
    · intro k hk hne
      rfl
    · intro h
      exact absurd rfl h
  | cons m rest ih =>
    intro fs h0 hp
    have hfresh : encryptedFileOf server username m.ts ∉ fsKeys fs :=
      h0 m (List.mem_cons_self m rest)
    obtain ⟨hs1, hs2, hs3, hs4, hs5⟩ :=
      mint_step server username m.pw m.ts m.ctime encFn fs hfresh
    have hphead : ∀ b ∈ rest, m.ts ≠ b.ts := (List.pairwise_cons.mp hp).1
    have hptail := (List.pairwise_cons.mp hp).2
    have h0' : ∀ m' ∈ rest, encryptedFileOf server username m'.ts
        ∉ fsKeys (create_vault_structure server username m.pw m.ts m.ctime encFn true fs).2 := by
      intro m' hm' hmem
      rcases hs5 _ hmem with hk | hk | hk | hk | hk
      · exact h0 m' (List.mem_cons_of_mem m hm') hk
      · exact (ne_of_isVersionKey_true_false
          (isVersionKey_encryptedFileOf server username m'.ts)
          (isVersionKey_currentFileOf server username server username)) hk
      · exact (ne_of_isVersionKey_true_false
          (isVersionKey_encryptedFileOf server username m'.ts)
          (isVersionKey_timestampFileOf server username server username)) hk
      · exact hphead m' hm' (encryptedFileOf_ts_injective hk).symm
      · exact (ne_of_isVersionKey_true_false
          (isVersionKey_encryptedFileOf server username m'.ts)
          (isVersionKey_passwordFileOf server username server username m.ts)) hk
    obtain ⟨ih1, ih2, ih3, ih4⟩ := ih _ h0' hptail
    have hrun : runMints server username encFn (m :: rest) fs
        = runMints server username encFn rest
          (create_vault_structure server username m.pw m.ts m.ctime encFn true fs).2 := rfl
    refine ⟨?_, ?_, ?_, ?_⟩
    · rw [hrun, ih1, hs1, List.length_cons]
      omega
    · intro m'' hm''
      rcases List.mem_cons.mp hm'' with heq | hmem
      · subst heq
        rw [hrun]
        have hknes : ∀ m' ∈ rest, encryptedFileOf server username m''.ts
            ≠ encryptedFileOf server username m'.ts := by
          intro m' hm' heq2
          exact hphead m' hm' (encryptedFileOf_ts_injective heq2)
        rw [ih3 _ (isVersionKey_encryptedFileOf server username m''.ts) hknes]
        exact hs3
      · rw [hrun]
        exact ih2 m'' hmem
    · intro k hk hknes
      rw [hrun, ih3 k hk (fun m' hm' => hknes m' (List.mem_cons_of_mem m hm'))]
      exact hs4 k hk (hknes m (List.mem_cons_self m rest))
    · intro hne
      by_cases hrestnil : rest = []
      · subst hrestnil
        rw [hrun]
        simpa [runMints, List.getLast] using hs2
      · rw [hrun, ih4 hrestnil]
        have hlast : (m :: rest).getLast hne = rest.getLast hrestnil :=
          List.getLast_cons hrestnil
        rw [hlast]

/-- C6 counterexample: two mints in the same second share the version
directory name; the rotation overwrites the only version blob, so after one
rotation a single version exists (not two) and the first ciphertext is gone. -/
theorem rotation_same_second_loses_history_cex :
    version_count "db1".data "admin".data
      (runMints "db1".data "admin".data tagEnc
        [⟨"pw1".data, "TS".data, "T1".data⟩, ⟨"pw2".data, "TS".data, "T2".data⟩] [])
      = 1 ∧
    fsRead (runMints "db1".data "admin".data tagEnc
        [⟨"pw1".data, "TS".data, "T1".data⟩, ⟨"pw2".data, "TS".data, "T2".data⟩] [])
      (encryptedFileOf "db1".data "admin".data "TS".data) = some (tagEnc "pw2".data) ∧
    tagEnc "pw2".data ≠ tagEnc "pw1".data := by
  refine ⟨by decide, by decide, by decide⟩

/-- C6 amended: provided the mint timestamps are pairwise distinct (the
second-resolution directory names do not collide), a sequence of N+1
successful mints on a vault with no prior versions for the pair leaves
exactly N+1 version blobs, every earlier version's ciphertext intact, a
CurrentPointer referencing the stored latest version, and retrieve_current
returning the latest minted plaintext (stripped, as the source strips the
decrypt output). -/
theorem rotation_preserves_history (server username : Str) (encFn : Str → Str)
    (decFn : Str → Option Str) (hcipher : ∀ p, decFn (encFn p) = some p) (now : Str)
    (ms : List MintInput) (hne : ms ≠ [])
    (hdist : ms.Pairwise (fun a b => a.ts ≠ b.ts))
    (fs : FS) (hzero : version_count server username fs = 0) :
    version_count server username (runMints server username encFn ms fs) = ms.length ∧
    (∀ m ∈ ms, fsRead (runMints server username encFn ms fs)
        (encryptedFileOf server username m.ts) = some (encFn m.pw)) ∧
    fsRead (runMints server username encFn ms fs) (currentFileOf server username)
      = some (encryptedFileOf server username (ms.getLast hne).ts) ∧
    encryptedFileOf server username (ms.getLast hne).ts
      ∈ fsKeys (runMints server username encFn ms fs) ∧
    (retrieve_password_from_vault server username decFn now
        (runMints server username encFn ms fs)).1
      = { success := true, password := some (pyStrip ((ms.getLast hne).pw)) } := by
  have h0 : ∀ m ∈ ms, encryptedFileOf server username m.ts ∉ fsKeys fs := by
    intro m hm hmem
    have hpos : 0 < (fsKeys fs).countP (isVersionKey server username) :=
      List.countP_pos_iff.mpr ⟨_, hmem, isVersionKey_encryptedFileOf server username m.ts⟩
    unfold version_count countKeys at hzero
    omega
  obtain ⟨hr1, hr2, hr3, hr4⟩ := runMints_spec server username encFn ms fs h0 hdist
  have hcount : version_count server username (runMints server username encFn ms fs)
      = ms.length := by
    rw [hr1, hzero]
    omega
  have hlastmem : ms.getLast hne ∈ ms := List.getLast_mem hne
  have hlastread := hr2 _ hlastmem
  refine ⟨hcount, hr2, hr4 hne, mem_fsKeys_of_fsRead hlastread, ?_⟩
  unfold retrieve_password_from_vault
  simp only [hr4 hne, pyStrip_encryptedFileOf, hlastread, hcipher]

theorem rotation_preserves_history_witness :
    version_count "db1".data "admin".data
      (runMints "db1".data "admin".data tagEnc
        [⟨"pw1".data, "TSa".data, "T1".data⟩, ⟨"pw2".data, "TSb".data, "T2".data⟩] [])
      = 2 ∧
    (∀ m ∈ ([⟨"pw1".data, "TSa".data, "T1".data⟩,
             ⟨"pw2".data, "TSb".data, "T2".data⟩] : List MintInput),
      fsRead (runMints "db1".data "admin".data tagEnc
          [⟨"pw1".data, "TSa".data, "T1".data⟩, ⟨"pw2".data, "TSb".data, "T2".data⟩] [])
        (encryptedFileOf "db1".data "admin".data m.ts) = some (tagEnc m.pw)) ∧
    fsRead (runMints "db1".data "admin".data tagEnc
        [⟨"pw1".data, "TSa".data, "T1".data⟩, ⟨"pw2".data, "TSb".data, "T2".data⟩] [])
      (currentFileOf "db1".data "admin".data)
      = some (encryptedFileOf "db1".data "admin".data "TSb".data) ∧
    encryptedFileOf "db1".data "admin".data "TSb".data
      ∈ fsKeys (runMints "db1".data "admin".data tagEnc
        [⟨"pw1".data, "TSa".data, "T1".data⟩, ⟨"pw2".data, "TSb".data, "T2".data⟩] []) ∧
    (retrieve_password_from_vault "db1".data "admin".data tagDec "T9".data
        (runMints "db1".data "admin".data tagEnc
          [⟨"pw1".data, "TSa".data, "T1".data⟩, ⟨"pw2".data, "TSb".data, "T2".data⟩] [])).1
      = { success := true, password := some (pyStrip "pw2".data) } :=
  rotation_preserves_history "db1".data "admin".data tagEnc tagDec tagDec_tagEnc
    "T9".data
    [⟨"pw1".data, "TSa".data, "T1".data⟩, ⟨"pw2".data, "TSb".data, "T2".data⟩]
    (by decide) (by decide) [] (by decide)

end Lockr
